import Mathlib

/-!
Shallow embedding of the `optioncalc` repository's computational core:
the payoff evaluator `calculatePortfolioValueAtExpiration` (two variants:
`chart.js`, and the validating variant shared by `oc.js`,
`unnamed/part_000` and `unnamed/part_001`) and the curve analyzer
`findKeyPointsOnCurve` (two variants: `chart.js`'s state-machine walk and
`unnamed/part_000`'s interpolating/sorting variant).

Numbers are modelled as exact rationals.  JavaScript's
`parseFloat(x.toFixed(2))` is modelled as rounding `x * 100` to the
nearest integer (ties toward positive infinity, as ECMAScript's `toFixed`
picks the larger candidate) divided by 100.
-/

/-- Model of one option position object as read by the evaluators:
`type` is the raw string tag (`"c"` for call, `"p"` for put, anything
else possible), `strike` and `qty` the numeric fields, and
`contractMultiplier` optional (absent field modelled as `none`; the
`oc.js` evaluator destructures it with default `100`). -/
structure OptionLeg where
  type : String
  strike : ℚ
  qty : ℚ
  contractMultiplier : Option ℚ
deriving DecidableEq, Repr

/-- Model of one point of the value curve. -/
structure ValuePoint where
  closingPrice : ℚ
  totalIntrinsicValue : ℚ
deriving DecidableEq, Repr

/-- The four key-point kinds emitted by `findKeyPointsOnCurve`
(the JS objects carry them in the `type` field as strings). -/
inductive KPKind where
  | low_point
  | high_point
  | zero_crossing
  | curve_endpoint
deriving DecidableEq, Repr

/-- Model of one emitted key point. -/
structure KeyPoint where
  kind : KPKind
  closingPrice : ℚ
  totalIntrinsicValue : ℚ
  description : String
deriving DecidableEq, Repr

/-- Trend tag used by the analyzers (`'up' | 'down' | 'flat'` in
`chart.js`; `part_000` uses only `up`/`down` with `null` for flat). -/
inductive Trend where
  | up
  | down
  | flat
deriving DecidableEq, Repr

/-- Model of `parseFloat(x.toFixed(2))`: round to two decimal places. -/
def round2 (x : ℚ) : ℚ := ((round (x * 100) : ℤ) : ℚ) / 100

/-- The price sweep loop
`for (let closingPrice = minPrice; closingPrice <= maxPrice; closingPrice += priceStep)`:
the list of swept prices starting at `p`. -/
def sweepFrom (maxPrice priceStep : ℚ) (hstep : 0 < priceStep) (p : ℚ) : List ℚ :=
  if h : p ≤ maxPrice then p :: sweepFrom maxPrice priceStep hstep (p + priceStep) else []
termination_by (⌊(maxPrice - p) / priceStep⌋ + 1).toNat
decreasing_by
  have hd : (0 : ℚ) ≤ (maxPrice - p) / priceStep := div_nonneg (by linarith) hstep.le
  have h1 : (maxPrice - (p + priceStep)) / priceStep = (maxPrice - p) / priceStep - 1 := by
    field_simp
    ring
  have h2 : ⌊(maxPrice - p) / priceStep - 1⌋ = ⌊(maxPrice - p) / priceStep⌋ - 1 := by
    exact_mod_cast Int.floor_sub_int ((maxPrice - p) / priceStep) 1
  have h3 : (0 : ℤ) ≤ ⌊(maxPrice - p) / priceStep⌋ := Int.floor_nonneg.2 hd
  rw [h1, h2]
  omega

namespace Chart

/-- Contribution of one position at one closing price in `chart.js`'s
evaluator: calls and puts contribute intrinsic value times `qty` times
the hardcoded contract multiplier `100`; any other `type` tag is
silently skipped (contributes `0`). -/
def legContribution (closingPrice : ℚ) (position : OptionLeg) : ℚ :=
  if position.type = "c" then max 0 (closingPrice - position.strike) * position.qty * 100
  else if position.type = "p" then max 0 (position.strike - closingPrice) * position.qty * 100
  else 0

/-- The inner accumulation loop of `chart.js`'s evaluator at one price. -/
def portfolioValue (optionsPositions : List OptionLeg) (closingPrice : ℚ) : ℚ :=
  optionsPositions.foldl (fun acc position => acc + legContribution closingPrice position) 0

/-- `chart.js`'s `calculatePortfolioValueAtExpiration`: validates only
non-emptiness, `minPrice < maxPrice` and `priceStep > 0`, then emits one
`ValuePoint` per swept price with both fields rounded to 2 decimals. -/
def calculatePortfolioValueAtExpiration (optionsPositions : List OptionLeg)
    (minPrice maxPrice priceStep : ℚ) : Except String (List ValuePoint) :=
  if optionsPositions.isEmpty then
    .error "optionsPositions must be a non-empty array of option configurations."
  else if minPrice ≥ maxPrice then
    .error "minPrice must be less than maxPrice"
  else if h : priceStep ≤ 0 then
    .error "priceStep must be greater than 0"
  else
    .ok ((sweepFrom maxPrice priceStep (lt_of_not_le h) minPrice).map fun p =>
      ⟨round2 p, round2 (portfolioValue optionsPositions p)⟩)

/-- One iteration's trend-change emissions in `chart.js`'s
`findKeyPointsOnCurve` (the `if (trend !== currentTrend)` block). -/
def trendEmits (trend : Option Trend) (ct : Trend) (lnf : Option ValuePoint)
    (prev : ValuePoint) : List KeyPoint :=
  if trend ≠ some ct then
    if trend ≠ some .up ∧ ct = .up then
      [⟨.low_point, prev.closingPrice, prev.totalIntrinsicValue, "Low point"⟩]
    else if trend ≠ some .down ∧ ct = .down then
      [⟨.high_point, prev.closingPrice, prev.totalIntrinsicValue, "High point"⟩]
    else if trend = some .flat ∧ ct ≠ .flat then
      match lnf with
      | some q =>
          if ct = .up then
            [⟨.low_point, q.closingPrice, q.totalIntrinsicValue, "Low point (after flat)"⟩]
          else
            [⟨.high_point, q.closingPrice, q.totalIntrinsicValue, "High point (after flat)"⟩]
      | none => []
    else []
  else []

/-- The trend classification of one step (`currentTrend` in the source). -/
def trendOf (prevValue currentValue : ℚ) : Trend :=
  if currentValue > prevValue then .up
  else if currentValue < prevValue then .down
  else .flat

/-- One iteration's zero-crossing emission in `chart.js`'s
`findKeyPointsOnCurve`: on a profit/loss sign change the key point is
snapped to the current grid point (no interpolation in this variant). -/
def crossEmits (prevValue currentValue : ℚ) (current : ValuePoint) : List KeyPoint :=
  if (prevValue < 0 ∧ currentValue ≥ 0) ∨ (prevValue > 0 ∧ currentValue ≤ 0) then
    [⟨.zero_crossing, current.closingPrice, current.totalIntrinsicValue, "Break-even"⟩]
  else []

/-- The interior walk of `chart.js`'s `findKeyPointsOnCurve`
(`for (let i = 1; i < valueCurve.length - 1; i++)`): `prev` carries
`valueCurve[i-1]`; the head of the remaining list is `valueCurve[i]`,
processed only while a successor exists. -/
def walk (cost : ℚ) (trend : Option Trend) (lnf : Option ValuePoint) (prev : ValuePoint) :
    List ValuePoint → List KeyPoint
  | current :: rest@(_ :: _) =>
      trendEmits trend
          (trendOf (prev.totalIntrinsicValue - cost) (current.totalIntrinsicValue - cost)) lnf prev
        ++ crossEmits (prev.totalIntrinsicValue - cost) (current.totalIntrinsicValue - cost) current
        ++ walk cost
          (some (trendOf (prev.totalIntrinsicValue - cost) (current.totalIntrinsicValue - cost)))
          (if trendOf (prev.totalIntrinsicValue - cost) (current.totalIntrinsicValue - cost) ≠ .flat
           then some current else lnf)
          current rest
  | _ => []

/-- Accessor for `valueCurve[valueCurve.length - 2]` and
`valueCurve[valueCurve.length - 1]` (the second-to-last and last points
read by the endpoint check), as a recursion on the list. -/
def lastTwo {α : Type} : List α → Option (α × α)
  | [a, b] => some (a, b)
  | _ :: b :: c :: r => lastTwo (b :: c :: r)
  | _ => none

/-- `chart.js`'s `findKeyPointsOnCurve`: curve-start endpoint, interior
state-machine walk, curve-end endpoint; curves shorter than 3 yield `[]`. -/
def findKeyPointsOnCurve (valueCurve : List ValuePoint) (cost : ℚ) : List KeyPoint :=
  match valueCurve with
  | p0 :: rest@(p1 :: _ :: _) =>
      let startPts : List KeyPoint :=
        if p0.totalIntrinsicValue - cost ≠ p1.totalIntrinsicValue - cost then
          [⟨.curve_endpoint, p0.closingPrice, p0.totalIntrinsicValue, "Curve Start"⟩]
        else []
      let endPts : List KeyPoint :=
        match lastTwo (p0 :: rest) with
        | some (psecond, plast) =>
            if plast.totalIntrinsicValue - cost ≠ psecond.totalIntrinsicValue - cost then
              [⟨.curve_endpoint, plast.closingPrice, plast.totalIntrinsicValue, "Curve End"⟩]
            else []
        | none => []
      startPts ++ walk cost none none p0 rest ++ endPts
  | _ => []

end Chart

namespace Oc

/-- Per-leg computation of the validating evaluator (identical in
`oc.js`, `unnamed/part_000` and `unnamed/part_001`): rejects a non-`c`/`p`
type, non-positive strike or zero quantity, otherwise returns
`intrinsicPerShare * contractMultiplier * qty` with the multiplier
defaulting to `100`. -/
def legValue (closingPrice : ℚ) (optionConfig : OptionLeg) : Except String ℚ :=
  if ¬(optionConfig.type = "c" ∨ optionConfig.type = "p") then
    .error "Invalid option type"
  else if optionConfig.strike ≤ 0 ∨ optionConfig.qty = 0 then
    .error "Invalid strike or quantity"
  else
    .ok ((if optionConfig.type = "c" then max 0 (closingPrice - optionConfig.strike)
          else max 0 (optionConfig.strike - closingPrice))
         * optionConfig.contractMultiplier.getD 100 * optionConfig.qty)

/-- The inner accumulation loop at one price; a thrown validation error
aborts the whole computation. -/
def portfolioValue (optionsPositions : List OptionLeg) (closingPrice : ℚ) :
    Except String ℚ :=
  optionsPositions.foldlM
    (fun acc optionConfig => (legValue closingPrice optionConfig).map (fun v => acc + v)) 0

/-- The validating `calculatePortfolioValueAtExpiration` of `oc.js`
(also in `unnamed/part_000` and `unnamed/part_001`). -/
def calculatePortfolioValueAtExpiration (optionsPositions : List OptionLeg)
    (minPrice maxPrice priceStep : ℚ) : Except String (List ValuePoint) :=
  if optionsPositions.isEmpty then
    .error "optionsPositions must be a non-empty array of option configurations."
  else if minPrice ≥ maxPrice then
    .error "minPrice must be less than maxPrice."
  else if h : priceStep ≤ 0 then
    .error "priceStep must be a positive number."
  else
    (sweepFrom maxPrice priceStep (lt_of_not_le h) minPrice).mapM fun p =>
      (portfolioValue optionsPositions p).map fun v => ⟨round2 p, round2 v⟩

end Oc

namespace Part000

/-- The zero-crossing scan of `unnamed/part_000`'s `findKeyPointsOnCurve`:
over every adjacent pair, when the profit/loss sign changes (including a
zero endpoint) and the two values differ, it emits a `zero_crossing` at
the linearly interpolated break-even price, carrying `cost` as the value. -/
def crossingsLoop (cost : ℚ) : List ValuePoint → List KeyPoint
  | current :: rest@(next :: _) =>
      let cpl := current.totalIntrinsicValue - cost
      let npl := next.totalIntrinsicValue - cost
      (if ((cpl ≤ 0 ∧ 0 ≤ npl) ∨ (0 ≤ cpl ∧ npl ≤ 0)) ∧ cpl ≠ npl then
        [⟨.zero_crossing,
          current.closingPrice + (next.closingPrice - current.closingPrice) * (|cpl| / |npl - cpl|),
          cost, "Break Even"⟩]
      else []) ++ crossingsLoop cost rest
  | _ => []

/-- The trend classification of one step in `unnamed/part_000`'s trend
scan: raw `totalIntrinsicValue` delta, with `none` for a flat step. -/
def trendOf? (diff : ℚ) : Option Trend :=
  if 0 < diff then some .up else if diff < 0 then some .down else none

/-- The trend-reversal emission of `unnamed/part_000`'s trend scan
(`trend !== null && currentTrend !== null && currentTrend !== trend`). -/
def trendStep1 (trend ct : Option Trend) (prev : ValuePoint) : List KeyPoint :=
  match trend, ct with
  | some t, some c =>
      if c ≠ t then
        if t = .down ∧ c = .up then
          [⟨.low_point, prev.closingPrice, prev.totalIntrinsicValue, "Low Point"⟩]
        else if t = .up ∧ c = .down then
          [⟨.high_point, prev.closingPrice, prev.totalIntrinsicValue, "High Point"⟩]
        else []
      else []
  | _, _ => []

/-- The flat-run emission of `unnamed/part_000`'s trend scan
(`trend === null && currentTrend !== null && lastNonFlatPoint !== null`). -/
def trendStep2 (trend ct : Option Trend) (lnf : Option ValuePoint) : List KeyPoint :=
  match trend, ct, lnf with
  | none, some c, some q =>
      if c = .up then
        [⟨.low_point, q.closingPrice, q.totalIntrinsicValue, "Low Point"⟩]
      else
        [⟨.high_point, q.closingPrice, q.totalIntrinsicValue, "High Point"⟩]
  | _, _, _ => []

/-- The trend scan of `unnamed/part_000`'s `findKeyPointsOnCurve`: the
trend uses raw `totalIntrinsicValue` deltas; flat steps map to `none`;
`trend`/`lastNonFlatPoint` are updated only on non-flat steps. -/
def trendLoop (trend : Option Trend) (lnf : Option ValuePoint) (prev : ValuePoint) :
    List ValuePoint → List KeyPoint
  | current :: rest =>
      trendStep1 trend (trendOf? (current.totalIntrinsicValue - prev.totalIntrinsicValue)) prev
        ++ trendStep2 trend
          (trendOf? (current.totalIntrinsicValue - prev.totalIntrinsicValue)) lnf
        ++ trendLoop
          (if trendOf? (current.totalIntrinsicValue - prev.totalIntrinsicValue) ≠ none
           then trendOf? (current.totalIntrinsicValue - prev.totalIntrinsicValue) else trend)
          (if trendOf? (current.totalIntrinsicValue - prev.totalIntrinsicValue) ≠ none
           then some current else lnf)
          current rest
  | [] => []

/-- The comparison `(a, b) => a.closingPrice - b.closingPrice` used by the
final `keyPoints.sort`. -/
def priceLE (a b : KeyPoint) : Prop := a.closingPrice ≤ b.closingPrice

instance : DecidableRel priceLE := fun a b => inferInstanceAs (Decidable (_ ≤ _))

instance : IsTotal KeyPoint priceLE := ⟨fun a b => le_total a.closingPrice b.closingPrice⟩

instance : IsTrans KeyPoint priceLE := ⟨fun _ _ _ h1 h2 => le_trans h1 h2⟩

/-- `unnamed/part_000`'s `findKeyPointsOnCurve`: interpolated crossings,
then trend extrema, then a stable sort by ascending `closingPrice`
(JavaScript's stable `Array.prototype.sort` is modelled by insertion
sort). Curves shorter than 3 yield `[]`. -/
def findKeyPointsOnCurve (valueCurve : List ValuePoint) (cost : ℚ) : List KeyPoint :=
  if valueCurve.length < 3 then []
  else
    let keyPoints := crossingsLoop cost valueCurve ++
      (match valueCurve with
       | p0 :: rest => trendLoop none none p0 rest
       | [] => [])
    keyPoints.insertionSort priceLE

end Part000

/-! ### Basic lemmas about the price sweep and rounding -/

/-- The sweep loop enumerates exactly the prices `p, p+step, …`,
`⌊(maxPrice - p)/priceStep⌋ + 1` of them when `p ≤ maxPrice`. -/
theorem sweepFrom_eq_map (maxPrice priceStep : ℚ) (hstep : 0 < priceStep) (p : ℚ) :
    sweepFrom maxPrice priceStep hstep p =
      (List.range (if p ≤ maxPrice then (⌊(maxPrice - p) / priceStep⌋).toNat + 1 else 0)).map
        (fun i : ℕ => p + (i : ℚ) * priceStep) := by
  induction p using sweepFrom.induct maxPrice priceStep hstep with
  | case1 p h ih =>
    rw [sweepFrom, dif_pos h, if_pos h, ih]
    have hd : (0 : ℚ) ≤ (maxPrice - p) / priceStep := div_nonneg (by linarith) hstep.le
    have hfl : (0 : ℤ) ≤ ⌊(maxPrice - p) / priceStep⌋ := Int.floor_nonneg.2 hd
    have hstepdiff : (maxPrice - (p + priceStep)) / priceStep = (maxPrice - p) / priceStep - 1 := by
      field_simp
      ring
    by_cases hps : p + priceStep ≤ maxPrice
    · rw [if_pos hps]
      have hge : (1 : ℚ) ≤ (maxPrice - p) / priceStep :=
        (le_div_iff₀ hstep).2 (by linarith)
      have hfl1 : (1 : ℤ) ≤ ⌊(maxPrice - p) / priceStep⌋ := by
        exact_mod_cast Int.le_floor.2 (by exact_mod_cast hge)
      have hfloor : ⌊(maxPrice - (p + priceStep)) / priceStep⌋ =
          ⌊(maxPrice - p) / priceStep⌋ - 1 := by
        rw [hstepdiff]
        exact_mod_cast Int.floor_sub_int ((maxPrice - p) / priceStep) 1
      have hN : (⌊(maxPrice - p) / priceStep⌋).toNat + 1 =
          ((⌊(maxPrice - (p + priceStep)) / priceStep⌋).toNat + 1) + 1 := by
        rw [hfloor]; omega
      rw [hN, List.range_succ_eq_map (⌊(maxPrice - (p + priceStep)) / priceStep⌋.toNat + 1),
        List.map_cons, List.map_map]
      congr 1
      · norm_num
      · apply List.map_congr_left
        intro i _
        simp only [Function.comp_apply]
        push_cast
        ring
    · rw [if_neg hps]
      have hlt : (maxPrice - p) / priceStep < 1 := (div_lt_one hstep).2 (by linarith)
      have hfl0 : ⌊(maxPrice - p) / priceStep⌋ = 0 :=
        Int.floor_eq_zero_iff.2 ⟨hd, hlt⟩
      rw [hfl0]
      simp [List.range_succ]
  | case2 p h =>
    rw [sweepFrom, dif_neg h, if_neg h]
    simp

/-- Rounding to two decimals is monotone. -/
theorem round2_mono {x y : ℚ} (h : x ≤ y) : round2 x ≤ round2 y := by
  unfold round2
  have : round (x * 100) ≤ round (y * 100) := by
    rw [round_eq, round_eq]
    exact Int.floor_mono (by linarith)
  have h100 : (0 : ℚ) < 100 := by norm_num
  exact (div_le_div_right h100).2 (by exact_mod_cast this)

/-- Rounding to two decimals is strictly monotone across a gap of at
least one hundredth. -/
theorem round2_lt_round2 {x y : ℚ} (h : x + 1 / 100 ≤ y) : round2 x < round2 y := by
  unfold round2
  have h1 : round (x * 100) + 1 ≤ round (y * 100) := by
    have h2 : round (x * 100 + (1 : ℤ)) ≤ round (y * 100) := by
      rw [round_eq, round_eq]
      exact Int.floor_mono (by push_cast; linarith)
    rwa [round_add_int] at h2
  have hlt : ((round (x * 100) : ℤ) : ℚ) < ((round (y * 100) : ℤ) : ℚ) := by
    exact_mod_cast h1
  have h100 : (0 : ℚ) < 100 := by norm_num
  exact div_lt_div_of_pos_right hlt h100

/-- The validity predicate on one leg that the spec's Evaluator
preconditions demand: call/put type, positive strike, nonzero quantity. -/
def ValidLeg (l : OptionLeg) : Prop :=
  (l.type = "c" ∨ l.type = "p") ∧ 0 < l.strike ∧ l.qty ≠ 0

instance : DecidablePred ValidLeg := fun l =>
  inferInstanceAs (Decidable ((l.type = "c" ∨ l.type = "p") ∧ 0 < l.strike ∧ l.qty ≠ 0))

/-- Boolean success test on `Except` results. -/
def ExceptOk {ε α : Type} : Except ε α → Bool
  | .ok _ => true
  | .error _ => false

theorem exceptOk_iff {ε α : Type} (e : Except ε α) :
    ExceptOk e = true ↔ ∃ v, e = .ok v := by
  cases e <;> simp [ExceptOk]

/-- The accumulation loop of `chart.js`'s evaluator computes the sum of
leg contributions in input order. -/
theorem Chart.portfolioValue_eq_sum (optionsPositions : List OptionLeg) (p : ℚ) :
    Chart.portfolioValue optionsPositions p =
      (optionsPositions.map (Chart.legContribution p)).sum := by
  unfold Chart.portfolioValue
  have h : ∀ (l : List OptionLeg) (acc : ℚ),
      l.foldl (fun acc position => acc + Chart.legContribution p position) acc =
        acc + (l.map (Chart.legContribution p)).sum := by
    intro l
    induction l with
    | nil => simp
    | cons x xs ih => intro acc; simp [ih, add_assoc]
  simpa using h optionsPositions 0

/-- Normal form of `chart.js`'s evaluator on inputs passing its three
checks: one point per index `i` of the swept range. -/
theorem Chart.calculate_ok_of_checks (optionsPositions : List OptionLeg) (minPrice maxPrice priceStep : ℚ)
    (h1 : optionsPositions ≠ []) (h2 : minPrice < maxPrice) (h3 : 0 < priceStep) :
    Chart.calculatePortfolioValueAtExpiration optionsPositions minPrice maxPrice priceStep =
      .ok ((List.range ((⌊(maxPrice - minPrice) / priceStep⌋).toNat + 1)).map fun i : ℕ =>
        ⟨round2 (minPrice + (i : ℚ) * priceStep),
         round2 (Chart.portfolioValue optionsPositions (minPrice + (i : ℚ) * priceStep))⟩) := by
  unfold Chart.calculatePortfolioValueAtExpiration
  have e1 : optionsPositions.isEmpty = false := by
    simpa [List.isEmpty_iff] using h1
  rw [e1]
  rw [if_neg (by simp : ¬(false = true))]
  rw [if_neg (not_le.2 h2)]
  rw [dif_neg (not_le.2 h3)]
  rw [sweepFrom_eq_map, if_pos h2.le, List.map_map]
  rfl

/-- The leg value computed by the validating evaluator (the expression
`intrinsicValuePerShare * contractMultiplier * qty` of `oc.js`). -/
def Oc.legContribution (closingPrice : ℚ) (l : OptionLeg) : ℚ :=
  (if l.type = "c" then max 0 (closingPrice - l.strike) else max 0 (l.strike - closingPrice))
    * l.contractMultiplier.getD 100 * l.qty

theorem Oc.legValue_ok (p : ℚ) (l : OptionLeg) (h : ValidLeg l) :
    Oc.legValue p l = .ok (Oc.legContribution p l) := by
  unfold Oc.legValue
  rw [if_neg (not_not_intro h.1), if_neg (not_or.2 ⟨not_le.2 h.2.1, h.2.2⟩)]
  rfl

theorem Oc.portfolioValue_ok (legs : List OptionLeg) (p : ℚ) (h : ∀ l ∈ legs, ValidLeg l) :
    Oc.portfolioValue legs p = .ok ((legs.map (Oc.legContribution p)).sum) := by
  unfold Oc.portfolioValue
  have main : ∀ (ls : List OptionLeg) (acc : ℚ), (∀ l ∈ ls, ValidLeg l) →
      ls.foldlM (fun acc c => (Oc.legValue p c).map (fun v => acc + v)) acc =
        .ok (acc + (ls.map (Oc.legContribution p)).sum) := by
    intro ls
    induction ls with
    | nil => intro acc _; simp [List.foldlM_nil]; rfl
    | cons x xs ih =>
        intro acc hv
        rw [List.foldlM_cons, Oc.legValue_ok p x (hv x (by simp))]
        show List.foldlM (fun acc c => (Oc.legValue p c).map (fun v => acc + v))
          (acc + Oc.legContribution p x) xs = _
        rw [ih (acc + Oc.legContribution p x) (fun l hl => hv l (by simp [hl]))]
        simp [add_assoc]
  simpa using main legs 0 h

/-- Mapping an errorless function over a list in the `Except` monad
returns the plain map. -/
theorem mapM_except_ok {α β : Type} (f : α → Except String β) (g : α → β) :
    ∀ l : List α, (∀ a ∈ l, f a = .ok (g a)) → l.mapM f = .ok (l.map g) := by
  intro l
  induction l with
  | nil => intro _; rfl
  | cons x xs ih =>
      intro h
      rw [List.mapM_cons, h x (by simp)]
      show (xs.mapM f >>= fun l2 => pure (g x :: l2)) = _
      rw [ih (fun a ha => h a (by simp [ha]))]
      rfl

/-- Normal form of the validating evaluator on fully valid input. -/
theorem Oc.calculate_ok_of_valid (legs : List OptionLeg) (minPrice maxPrice priceStep : ℚ)
    (h1 : legs ≠ []) (hv : ∀ l ∈ legs, ValidLeg l)
    (h2 : minPrice < maxPrice) (h3 : 0 < priceStep) :
    Oc.calculatePortfolioValueAtExpiration legs minPrice maxPrice priceStep =
      .ok ((List.range ((⌊(maxPrice - minPrice) / priceStep⌋).toNat + 1)).map fun i : ℕ =>
        ⟨round2 (minPrice + (i : ℚ) * priceStep),
         round2 ((legs.map (Oc.legContribution (minPrice + (i : ℚ) * priceStep))).sum)⟩) := by
  unfold Oc.calculatePortfolioValueAtExpiration
  have e1 : legs.isEmpty = false := by simpa [List.isEmpty_iff] using h1
  rw [e1]
  rw [if_neg (by simp : ¬(false = true))]
  rw [if_neg (not_le.2 h2)]
  rw [dif_neg (not_le.2 h3)]
  rw [sweepFrom_eq_map, if_pos h2.le]
  rw [mapM_except_ok _
    (fun p : ℚ => (⟨round2 p, round2 ((legs.map (Oc.legContribution p)).sum)⟩ : ValuePoint)) _
    (fun a _ => by rw [Oc.portfolioValue_ok legs a hv]; rfl)]
  rw [List.map_map]
  rfl

/-! ### Claim theorems -/

/-- C1: for every leg list and sweep satisfying the Evaluator's
preconditions and every swept price `minPrice + i * priceStep`, the
emitted `ValuePoint` carries the price rounded to 2 decimals and the sum
over the legs, in input order, of
`intrinsicPerShare * contractMultiplier * quantity` (multiplier
defaulting to 100; `max(0, P - strike)` for a call, `max(0, strike - P)`
for a put), rounded to 2 decimals. -/
theorem C1_value_is_rounded_leg_sum (legs : List OptionLeg) (minPrice maxPrice priceStep : ℚ)
    (h1 : legs ≠ []) (hv : ∀ l ∈ legs, ValidLeg l)
    (h2 : minPrice < maxPrice) (h3 : 0 < priceStep) :
    ∃ curve, Oc.calculatePortfolioValueAtExpiration legs minPrice maxPrice priceStep = .ok curve ∧
      ∀ i, (hi : i < curve.length) →
        curve[i].closingPrice = round2 (minPrice + (i : ℚ) * priceStep) ∧
        curve[i].totalIntrinsicValue = round2 ((legs.map fun l =>
          (if l.type = "c" then max 0 ((minPrice + (i : ℚ) * priceStep) - l.strike)
           else max 0 (l.strike - (minPrice + (i : ℚ) * priceStep)))
          * l.contractMultiplier.getD 100 * l.qty).sum) := by
  refine ⟨_, Oc.calculate_ok_of_valid legs minPrice maxPrice priceStep h1 hv h2 h3, ?_⟩
  intro i hi
  simp only [List.length_map, List.length_range] at hi
  simp only [List.getElem_map, List.getElem_range]
  exact ⟨trivial, rfl⟩

/-- C1 witness: a single long call, strike 100, swept 90..110 step 10. -/
theorem C1_value_is_rounded_leg_sum_witness :
    ([⟨"c", 100, 1, none⟩] : List OptionLeg) ≠ [] ∧
    (∀ l ∈ ([⟨"c", 100, 1, none⟩] : List OptionLeg), ValidLeg l) ∧
    (90 : ℚ) < 110 ∧ (0 : ℚ) < 10 ∧
    (∃ curve,
      Oc.calculatePortfolioValueAtExpiration [⟨"c", 100, 1, none⟩] 90 110 10 = .ok curve ∧
      ∀ i, (hi : i < curve.length) →
        curve[i].closingPrice = round2 (90 + (i : ℚ) * 10) ∧
        curve[i].totalIntrinsicValue = round2 ((([⟨"c", 100, 1, none⟩] : List OptionLeg).map fun l =>
          (if l.type = "c" then max 0 ((90 + (i : ℚ) * 10) - l.strike)
           else max 0 (l.strike - (90 + (i : ℚ) * 10)))
          * l.contractMultiplier.getD 100 * l.qty).sum)) :=
  ⟨by simp, by norm_num [ValidLeg], by norm_num, by norm_num,
   C1_value_is_rounded_leg_sum [⟨"c", 100, 1, none⟩] 90 110 10
     (by simp) (by norm_num [ValidLeg]) (by norm_num) (by norm_num)⟩

/-- C6: on inputs satisfying the preconditions the chart.js evaluator
returns exactly `⌊(maxPrice - minPrice) / priceStep⌋ + 1` points, one per
swept price `minPrice + i * priceStep`, every swept price staying at or
below `maxPrice` with no forced inclusion of `maxPrice`. -/
theorem C6_point_count_and_grid (legs : List OptionLeg) (minPrice maxPrice priceStep : ℚ)
    (h1 : legs ≠ []) (hv : ∀ l ∈ legs, ValidLeg l)
    (h2 : minPrice < maxPrice) (h3 : 0 < priceStep) :
    ∃ curve, Chart.calculatePortfolioValueAtExpiration legs minPrice maxPrice priceStep = .ok curve ∧
      curve.length = (⌊(maxPrice - minPrice) / priceStep⌋).toNat + 1 ∧
      ∀ i, (hi : i < curve.length) →
        curve[i].closingPrice = round2 (minPrice + (i : ℚ) * priceStep) ∧
        minPrice + (i : ℚ) * priceStep ≤ maxPrice := by
  refine ⟨_, Chart.calculate_ok_of_checks legs minPrice maxPrice priceStep h1 h2 h3, by simp, ?_⟩
  intro i hi
  simp only [List.length_map, List.length_range] at hi
  simp only [List.getElem_map, List.getElem_range]
  refine ⟨trivial, ?_⟩
  have hd : (0 : ℚ) ≤ (maxPrice - minPrice) / priceStep := div_nonneg (by linarith) h3.le
  have hfl : (0 : ℤ) ≤ ⌊(maxPrice - minPrice) / priceStep⌋ := Int.floor_nonneg.2 hd
  have hle : (i : ℚ) ≤ (maxPrice - minPrice) / priceStep := by
    have h4 : (i : ℤ) ≤ ⌊(maxPrice - minPrice) / priceStep⌋ := by
      have := Int.toNat_of_nonneg hfl
      omega
    calc (i : ℚ) ≤ (⌊(maxPrice - minPrice) / priceStep⌋ : ℚ) := by exact_mod_cast h4
      _ ≤ (maxPrice - minPrice) / priceStep := Int.floor_le _
  have := (le_div_iff₀ h3).1 hle
  linarith

/-- C6 witness: a single long call swept 90..110 step 10 (3 points). -/
theorem C6_point_count_and_grid_witness :
    ([⟨"c", 100, 1, none⟩] : List OptionLeg) ≠ [] ∧
    (∀ l ∈ ([⟨"c", 100, 1, none⟩] : List OptionLeg), ValidLeg l) ∧
    (90 : ℚ) < 110 ∧ (0 : ℚ) < 10 ∧
    (∃ curve,
      Chart.calculatePortfolioValueAtExpiration [⟨"c", 100, 1, none⟩] 90 110 10 = .ok curve ∧
      curve.length = (⌊((110 : ℚ) - 90) / 10⌋).toNat + 1 ∧
      ∀ i, (hi : i < curve.length) →
        curve[i].closingPrice = round2 (90 + (i : ℚ) * 10) ∧
        90 + (i : ℚ) * 10 ≤ 110) :=
  ⟨by simp, by norm_num [ValidLeg], by norm_num, by norm_num,
   C6_point_count_and_grid [⟨"c", 100, 1, none⟩] 90 110 10
     (by simp) (by norm_num [ValidLeg]) (by norm_num) (by norm_num)⟩

/-- C7 (amended): the rounded `closingPrice` values are strictly
increasing provided `priceStep` is at least one hundredth; a finer step
can collapse adjacent prices onto the same rounded value. -/
theorem C7_prices_strict_mono_when_step_ge_centi (legs : List OptionLeg)
    (minPrice maxPrice priceStep : ℚ)
    (h1 : legs ≠ []) (hv : ∀ l ∈ legs, ValidLeg l)
    (h2 : minPrice < maxPrice) (h3 : 0 < priceStep) (h4 : 1 / 100 ≤ priceStep) :
    ∃ curve, Chart.calculatePortfolioValueAtExpiration legs minPrice maxPrice priceStep = .ok curve ∧
      List.Pairwise (fun a b : ValuePoint => a.closingPrice < b.closingPrice) curve := by
  refine ⟨_, Chart.calculate_ok_of_checks legs minPrice maxPrice priceStep h1 h2 h3, ?_⟩
  rw [List.pairwise_map]
  have hr : List.Pairwise (· < ·)
      (List.range ((⌊(maxPrice - minPrice) / priceStep⌋).toNat + 1)) :=
    List.pairwise_lt_range _
  refine hr.imp ?_
  intro i j hij
  show round2 (minPrice + (i : ℚ) * priceStep) < round2 (minPrice + (j : ℚ) * priceStep)
  apply round2_lt_round2
  have hij1 : (i : ℚ) + 1 ≤ (j : ℚ) := by exact_mod_cast hij
  nlinarith [mul_le_mul_of_nonneg_right hij1 h3.le]

/-- C7 witness: step 10 over 90..110 gives strictly increasing prices. -/
theorem C7_prices_strict_mono_when_step_ge_centi_witness :
    ([⟨"c", 100, 1, none⟩] : List OptionLeg) ≠ [] ∧
    (∀ l ∈ ([⟨"c", 100, 1, none⟩] : List OptionLeg), ValidLeg l) ∧
    (90 : ℚ) < 110 ∧ (0 : ℚ) < 10 ∧ (1 : ℚ) / 100 ≤ 10 ∧
    (∃ curve,
      Chart.calculatePortfolioValueAtExpiration [⟨"c", 100, 1, none⟩] 90 110 10 = .ok curve ∧
      List.Pairwise (fun a b : ValuePoint => a.closingPrice < b.closingPrice) curve) :=
  ⟨by simp, by norm_num [ValidLeg], by norm_num, by norm_num, by norm_num,
   C7_prices_strict_mono_when_step_ge_centi [⟨"c", 100, 1, none⟩] 90 110 10
     (by simp) (by norm_num [ValidLeg]) (by norm_num) (by norm_num) (by norm_num)⟩

/-- C7 counterexample: with `priceStep = 1/1000` (below one hundredth of
a price unit), the three swept prices 0, 0.001, 0.002 all round to 0.00,
so the emitted `closingPrice` values are not strictly increasing. -/
theorem C7_counterexample_duplicate_rounded_prices :
    Chart.calculatePortfolioValueAtExpiration [⟨"c", 1, 1, none⟩] 0 (1/500) (1/1000) =
      .ok [⟨0, 0⟩, ⟨0, 0⟩, ⟨0, 0⟩] ∧
    ¬ List.Pairwise (fun a b : ValuePoint => a.closingPrice < b.closingPrice)
      [(⟨0, 0⟩ : ValuePoint), ⟨0, 0⟩, ⟨0, 0⟩] := by
  constructor
  · rw [Chart.calculate_ok_of_checks _ _ _ _ (by simp) (by norm_num) (by norm_num)]
    norm_num [Chart.portfolioValue, Chart.legContribution, round2]
    rw [(by rfl : Int.toNat 2 = 2)]
    norm_num [List.range_succ, round_eq]
  · intro h
    have := List.rel_of_pairwise_cons h (by simp : (⟨0, 0⟩ : ValuePoint) ∈ [(⟨0, 0⟩ : ValuePoint), ⟨0, 0⟩])
    exact absurd this (by norm_num)

/-- Adjacent duplicate-key legs contribute the same total as the single
combined leg, at every price. -/
theorem Chart.portfolioValue_combine (t : String) (s q1 q2 : ℚ) (pre suf : List OptionLeg)
    (p : ℚ) :
    Chart.portfolioValue (pre ++ ⟨t, s, q1, none⟩ :: ⟨t, s, q2, none⟩ :: suf) p =
      Chart.portfolioValue (pre ++ ⟨t, s, q1 + q2, none⟩ :: suf) p := by
  rw [Chart.portfolioValue_eq_sum, Chart.portfolioValue_eq_sum]
  simp only [List.map_append, List.sum_append, List.map_cons, List.sum_cons]
  unfold Chart.legContribution
  simp only []
  split_ifs <;> ring

/-- C8: a leg list with two legs at the same `(type, strike)` evaluates
to the same value curve as the list with the pair replaced by one leg
carrying the summed quantity, and duplicate-key legs never make the
evaluator error on a valid sweep. -/
theorem C8_duplicate_legs_combine_additively (t : String) (s q1 q2 : ℚ)
    (pre suf : List OptionLeg) (minPrice maxPrice priceStep : ℚ) :
    Chart.calculatePortfolioValueAtExpiration (pre ++ ⟨t, s, q1, none⟩ :: ⟨t, s, q2, none⟩ :: suf)
        minPrice maxPrice priceStep =
      Chart.calculatePortfolioValueAtExpiration (pre ++ ⟨t, s, q1 + q2, none⟩ :: suf)
        minPrice maxPrice priceStep ∧
    (minPrice < maxPrice → 0 < priceStep →
      ExceptOk (Chart.calculatePortfolioValueAtExpiration
        (pre ++ ⟨t, s, q1, none⟩ :: ⟨t, s, q2, none⟩ :: suf) minPrice maxPrice priceStep) = true) := by
  constructor
  · unfold Chart.calculatePortfolioValueAtExpiration
    have e1 : (pre ++ ⟨t, s, q1, none⟩ :: ⟨t, s, q2, none⟩ :: suf).isEmpty = false := by simp
    have e2 : (pre ++ ⟨t, s, q1 + q2, none⟩ :: suf).isEmpty = false := by simp
    rw [e1, e2]
    split
    · rfl
    split
    · rfl
    split
    · rfl
    congr 1
    apply List.map_congr_left
    intro p _
    rw [Chart.portfolioValue_combine]
  · intro h2 h3
    rw [Chart.calculate_ok_of_checks _ _ _ _ (by simp) h2 h3]
    rfl

/-- C8 witness: `[{Call,100,+1},{Call,100,+1}]` equals `[{Call,100,+2}]`
over the sweep 90..110 step 10, and does not error. -/
theorem C8_duplicate_legs_combine_additively_witness :
    (Chart.calculatePortfolioValueAtExpiration
        ([] ++ ⟨"c", 100, 1, none⟩ :: ⟨"c", 100, 1, none⟩ :: []) 90 110 10 =
      Chart.calculatePortfolioValueAtExpiration ([] ++ ⟨"c", 100, (1 : ℚ) + 1, none⟩ :: []) 90 110 10) ∧
    ((90 : ℚ) < 110 → (0 : ℚ) < 10 →
      ExceptOk (Chart.calculatePortfolioValueAtExpiration
        ([] ++ ⟨"c", 100, 1, none⟩ :: ⟨"c", 100, 1, none⟩ :: []) 90 110 10) = true) :=
  C8_duplicate_legs_combine_additively "c" 100 1 1 [] [] 90 110 10

/-- C10: on legs that are valid calls/puts with no `contractMultiplier`
field, the `chart.js` evaluator and the validating `oc.js` evaluator
return identical results for every valid sweep. -/
theorem C10_chart_and_oc_evaluators_agree (legs : List OptionLeg)
    (minPrice maxPrice priceStep : ℚ)
    (hv : ∀ l ∈ legs, ValidLeg l) (hm : ∀ l ∈ legs, l.contractMultiplier = none)
    (h2 : minPrice < maxPrice) (h3 : 0 < priceStep) :
    Chart.calculatePortfolioValueAtExpiration legs minPrice maxPrice priceStep =
      Oc.calculatePortfolioValueAtExpiration legs minPrice maxPrice priceStep := by
  by_cases h1 : legs = []
  · subst h1
    rfl
  rw [Chart.calculate_ok_of_checks legs minPrice maxPrice priceStep h1 h2 h3,
    Oc.calculate_ok_of_valid legs minPrice maxPrice priceStep h1 hv h2 h3]
  congr 1
  apply List.map_congr_left
  intro i _
  have hpt : ∀ p : ℚ, Chart.portfolioValue legs p = (legs.map (Oc.legContribution p)).sum := by
    intro p
    rw [Chart.portfolioValue_eq_sum]
    congr 1
    apply List.map_congr_left
    intro l hl
    unfold Chart.legContribution Oc.legContribution
    rw [hm l hl]
    rcases (hv l hl).1 with hc | hp
    · rw [if_pos hc, if_pos hc]
      show _ = _ * (Option.getD none 100) * _
      simp only [Option.getD_none]
      ring
    · have hnc : l.type ≠ "c" := by rw [hp]; decide
      rw [if_neg hnc, if_pos hp, if_neg hnc]
      show _ = _ * (Option.getD none 100) * _
      simp only [Option.getD_none]
      ring
  rw [hpt]

/-- C10 witness: both evaluators agree on a single long call 90..110. -/
theorem C10_chart_and_oc_evaluators_agree_witness :
    (∀ l ∈ ([⟨"c", 100, 1, none⟩] : List OptionLeg), ValidLeg l) ∧
    (∀ l ∈ ([⟨"c", 100, 1, none⟩] : List OptionLeg), l.contractMultiplier = none) ∧
    (90 : ℚ) < 110 ∧ (0 : ℚ) < 10 ∧
    Chart.calculatePortfolioValueAtExpiration [⟨"c", 100, 1, none⟩] 90 110 10 =
      Oc.calculatePortfolioValueAtExpiration [⟨"c", 100, 1, none⟩] 90 110 10 :=
  ⟨by norm_num [ValidLeg], by simp, by norm_num, by norm_num,
   C10_chart_and_oc_evaluators_agree [⟨"c", 100, 1, none⟩] 90 110 10
     (by norm_num [ValidLeg]) (by simp) (by norm_num) (by norm_num)⟩

theorem Oc.legValue_err (p : ℚ) (l : OptionLeg) (h : ¬ValidLeg l) :
    ∃ msg, Oc.legValue p l = .error msg := by
  unfold Oc.legValue
  by_cases ht : l.type = "c" ∨ l.type = "p"
  · rw [if_neg (not_not_intro ht)]
    have hcond : l.strike ≤ 0 ∨ l.qty = 0 := by
      by_contra hc
      push_neg at hc
      exact h ⟨ht, hc.1, hc.2⟩
    rw [if_pos hcond]
    exact ⟨_, rfl⟩
  · rw [if_pos ht]
    exact ⟨_, rfl⟩

theorem Oc.portfolioValue_err (legs : List OptionLeg) (p : ℚ)
    (h : ∃ l ∈ legs, ¬ValidLeg l) : ∃ msg, Oc.portfolioValue legs p = .error msg := by
  unfold Oc.portfolioValue
  have main : ∀ (ls : List OptionLeg) (acc : ℚ), (∃ l ∈ ls, ¬ValidLeg l) →
      ∃ msg, ls.foldlM (fun acc c => (Oc.legValue p c).map (fun v => acc + v)) acc =
        .error msg := by
    intro ls
    induction ls with
    | nil => rintro acc ⟨l, hl, _⟩; simp at hl
    | cons x xs ih =>
        rintro acc ⟨l, hl, hnv⟩
        by_cases hx : ValidLeg x
        · have hlxs : l ∈ xs := by
            rcases List.mem_cons.1 hl with rfl | hmem
            · exact absurd hx hnv
            · exact hmem
          rw [List.foldlM_cons, Oc.legValue_ok p x hx]
          show ∃ msg, List.foldlM (fun acc c => (Oc.legValue p c).map (fun v => acc + v))
            (acc + Oc.legContribution p x) xs = .error msg
          exact ih (acc + Oc.legContribution p x) ⟨l, hlxs, hnv⟩
        · obtain ⟨msg, hmsg⟩ := Oc.legValue_err p x hx
          rw [List.foldlM_cons, hmsg]
          exact ⟨msg, rfl⟩
  exact main legs 0 h

theorem Oc.calculate_err_of_bad_leg (legs : List OptionLeg) (minPrice maxPrice priceStep : ℚ)
    (h2 : minPrice < maxPrice) (h3 : 0 < priceStep) (hbad : ∃ l ∈ legs, ¬ValidLeg l) :
    ∃ msg, Oc.calculatePortfolioValueAtExpiration legs minPrice maxPrice priceStep =
      .error msg := by
  have h1 : legs ≠ [] := by
    rintro rfl
    obtain ⟨l, hl, _⟩ := hbad
    simp at hl
  unfold Oc.calculatePortfolioValueAtExpiration
  have e1 : legs.isEmpty = false := by simpa [List.isEmpty_iff] using h1
  rw [e1]
  rw [if_neg (by simp : ¬(false = true))]
  rw [if_neg (not_le.2 h2)]
  rw [dif_neg (not_le.2 h3)]
  rw [sweepFrom, dif_pos h2.le]
  rw [List.mapM_cons]
  obtain ⟨msg, hmsg⟩ := Oc.portfolioValue_err legs minPrice hbad
  rw [hmsg]
  exact ⟨msg, rfl⟩

/-- C5 (amended): the validating evaluator of `oc.js` succeeds exactly
when the leg list is non-empty, every leg is a call/put with positive
strike and nonzero quantity, `minPrice < maxPrice` and `priceStep > 0`
(so it errors exactly on the listed violations, returning no partial
curve); the `chart.js` evaluator checks only non-emptiness,
`minPrice < maxPrice` and `priceStep > 0`, and never errors on leg
contents. -/
theorem C5_invalid_input_error_conditions :
    (∀ (legs : List OptionLeg) (minPrice maxPrice priceStep : ℚ),
       ExceptOk (Oc.calculatePortfolioValueAtExpiration legs minPrice maxPrice priceStep) = true ↔
         legs ≠ [] ∧ (∀ l ∈ legs, ValidLeg l) ∧ minPrice < maxPrice ∧ 0 < priceStep) ∧
    (∀ (legs : List OptionLeg) (minPrice maxPrice priceStep : ℚ),
       ExceptOk (Chart.calculatePortfolioValueAtExpiration legs minPrice maxPrice priceStep) = true ↔
         legs ≠ [] ∧ minPrice < maxPrice ∧ 0 < priceStep) := by
  constructor
  · intro legs minPrice maxPrice priceStep
    constructor
    · intro hok
      have h1 : legs ≠ [] := by
        rintro rfl
        simp [Oc.calculatePortfolioValueAtExpiration, ExceptOk] at hok
      have e1 : legs.isEmpty = false := by simpa [List.isEmpty_iff] using h1
      have h2 : minPrice < maxPrice := by
        by_contra hc
        rw [not_lt] at hc
        unfold Oc.calculatePortfolioValueAtExpiration at hok
        rw [e1, if_neg (by simp : ¬(false = true)), if_pos hc] at hok
        simp [ExceptOk] at hok
      have h3 : 0 < priceStep := by
        by_contra hc
        rw [not_lt] at hc
        unfold Oc.calculatePortfolioValueAtExpiration at hok
        rw [e1, if_neg (by simp : ¬(false = true)), if_neg (not_le.2 h2), dif_pos hc] at hok
        simp [ExceptOk] at hok
      have h4 : ∀ l ∈ legs, ValidLeg l := by
        by_contra hc
        push_neg at hc
        obtain ⟨msg, hmsg⟩ := Oc.calculate_err_of_bad_leg legs minPrice maxPrice priceStep h2 h3 hc
        rw [hmsg] at hok
        simp [ExceptOk] at hok
      exact ⟨h1, h4, h2, h3⟩
    · rintro ⟨h1, hv, h2, h3⟩
      rw [Oc.calculate_ok_of_valid legs minPrice maxPrice priceStep h1 hv h2 h3]
      rfl
  · intro legs minPrice maxPrice priceStep
    constructor
    · intro hok
      have h1 : legs ≠ [] := by
        rintro rfl
        simp [Chart.calculatePortfolioValueAtExpiration, ExceptOk] at hok
      have e1 : legs.isEmpty = false := by simpa [List.isEmpty_iff] using h1
      have h2 : minPrice < maxPrice := by
        by_contra hc
        rw [not_lt] at hc
        unfold Chart.calculatePortfolioValueAtExpiration at hok
        rw [e1, if_neg (by simp : ¬(false = true)), if_pos hc] at hok
        simp [ExceptOk] at hok
      have h3 : 0 < priceStep := by
        by_contra hc
        rw [not_lt] at hc
        unfold Chart.calculatePortfolioValueAtExpiration at hok
        rw [e1, if_neg (by simp : ¬(false = true)), if_neg (not_le.2 h2), dif_pos hc] at hok
        simp [ExceptOk] at hok
      exact ⟨h1, h2, h3⟩
    · rintro ⟨h1, h2, h3⟩
      rw [Chart.calculate_ok_of_checks legs minPrice maxPrice priceStep h1 h2 h3]
      rfl

/-- C5 counterexample: a leg whose type is neither call nor put violates
the spec's preconditions, yet the `chart.js` evaluator succeeds instead
of failing. -/
theorem C5_counterexample_chart_accepts_invalid_leg :
    ¬(("x" : String) = "c" ∨ ("x" : String) = "p") ∧
    ExceptOk (Chart.calculatePortfolioValueAtExpiration [⟨"x", 5, 3, none⟩] 1 2 1) = true := by
  constructor
  · decide
  · norm_num [Chart.calculatePortfolioValueAtExpiration, ExceptOk]

/-- C9: for every input curve and cost, the key-point list returned by
`unnamed/part_000`'s `findKeyPointsOnCurve` (the variant with the final
`keyPoints.sort`) is ordered by ascending `closingPrice`. -/
theorem C9_key_points_sorted_by_closing_price (valueCurve : List ValuePoint) (cost : ℚ) :
    List.Pairwise (fun a b : KeyPoint => a.closingPrice ≤ b.closingPrice)
      (Part000.findKeyPointsOnCurve valueCurve cost) := by
  unfold Part000.findKeyPointsOnCurve
  split
  · exact List.Pairwise.nil
  · exact List.sorted_insertionSort Part000.priceLE _

/-- C4 (code evidence at the failing input): on the curve
`[(1,10),(2,5),(3,5),(4,8),(5,9)]` with cost 0, the trend turns Flat at
index 2 and Up at index 3 while `lastNonFlatPoint = (2,5)` is defined,
yet both analyzers emit the LowPoint at `curve[i-1] = (3,5)` — the
`(not Up) -> Up` branch shadows the Flat-transition branch, which is
unreachable — and no key point is emitted at the lastNonFlatPoint
price 2. -/
theorem C4_flat_to_up_emits_prev_not_lastNonFlatPoint :
    Chart.findKeyPointsOnCurve [⟨1,10⟩,⟨2,5⟩,⟨3,5⟩,⟨4,8⟩,⟨5,9⟩] 0 =
      [⟨.curve_endpoint,1,10,"Curve Start"⟩, ⟨.high_point,1,10,"High point"⟩,
       ⟨.low_point,3,5,"Low point"⟩, ⟨.curve_endpoint,5,9,"Curve End"⟩] ∧
    Part000.findKeyPointsOnCurve [⟨1,10⟩,⟨2,5⟩,⟨3,5⟩,⟨4,8⟩,⟨5,9⟩] 0 =
      [⟨.low_point,3,5,"Low Point"⟩] := by
  constructor
  · repeat first
      | rfl
      | norm_num [Chart.findKeyPointsOnCurve, Chart.walk, Chart.trendEmits, Chart.lastTwo,
          Chart.trendOf, Chart.crossEmits]
      | simp [Chart.walk, Chart.trendEmits, Chart.lastTwo, Chart.trendOf, Chart.crossEmits]
  · rw [Part000.findKeyPointsOnCurve]
    norm_num [Part000.crossingsLoop, Part000.trendLoop, Part000.trendOf?,
      Part000.trendStep1, Part000.trendStep2]
    simp [Part000.crossingsLoop, List.insertionSort, List.orderedInsert]

theorem Chart.crossEmits_kind (a b : ℚ) (c : ValuePoint) :
    ∀ k ∈ Chart.crossEmits a b c, k.kind = KPKind.zero_crossing := by
  intro k hk
  unfold Chart.crossEmits at hk
  split at hk
  · simp at hk
    rw [hk]
  · simp at hk

theorem Chart.trendOf_up {a b : ℚ} (h : a < b) : Chart.trendOf a b = Trend.up := by
  unfold Chart.trendOf
  rw [if_pos h]

/-- While the profit/loss keeps strictly rising and the tracked trend is
already Up, the walk emits only zero-crossing key points. -/
theorem Chart.walk_up_kinds (cost : ℚ) :
    ∀ (rest : List ValuePoint) (lnf : Option ValuePoint) (prev : ValuePoint),
      List.Chain' (fun a b : ValuePoint => a.totalIntrinsicValue < b.totalIntrinsicValue)
        (prev :: rest) →
      ∀ k ∈ Chart.walk cost (some Trend.up) lnf prev rest, k.kind = KPKind.zero_crossing := by
  intro rest
  induction rest with
  | nil => intro lnf prev _ k hk; simp [Chart.walk] at hk
  | cons current rest' ih =>
    intro lnf prev hchain k hk
    cases rest' with
    | nil => simp [Chart.walk] at hk
    | cons nxt rest'' =>
      have hlt : prev.totalIntrinsicValue - cost < current.totalIntrinsicValue - cost := by
        have := (List.chain'_cons.1 hchain).1
        linarith
      rw [Chart.walk, Chart.trendOf_up hlt] at hk
      have htrend : Chart.trendEmits (some Trend.up) Trend.up lnf prev = [] := rfl
      rw [htrend, List.nil_append, List.mem_append] at hk
      rcases hk with hk | hk
      · exact Chart.crossEmits_kind _ _ _ k hk
      · exact ih _ current (List.chain'_cons.1 hchain).2 k hk

/-- On a strictly rising start with undefined trend, the walk emits a
LowPoint at the first curve point, then only zero-crossings. -/
theorem Chart.walk_none_strict (cost : ℚ) (p0 p1 : ValuePoint) (rest : List ValuePoint)
    (hchain : List.Chain' (fun a b : ValuePoint => a.totalIntrinsicValue < b.totalIntrinsicValue)
      (p0 :: p1 :: rest))
    (hne : rest ≠ []) :
    ∃ tail, Chart.walk cost none none p0 (p1 :: rest) =
      ⟨KPKind.low_point, p0.closingPrice, p0.totalIntrinsicValue, "Low point"⟩ :: tail ∧
      ∀ k ∈ tail, k.kind = KPKind.zero_crossing := by
  obtain ⟨x, rest', rfl⟩ := List.exists_cons_of_ne_nil hne
  have hlt : p0.totalIntrinsicValue - cost < p1.totalIntrinsicValue - cost := by
    have := (List.chain'_cons.1 hchain).1
    linarith
  rw [Chart.walk, Chart.trendOf_up hlt]
  have htrend : Chart.trendEmits none Trend.up none p0 =
      [⟨KPKind.low_point, p0.closingPrice, p0.totalIntrinsicValue, "Low point"⟩] := rfl
  rw [htrend]
  refine ⟨_, rfl, ?_⟩
  intro k hk
  simp only [List.append_eq, List.nil_append, List.mem_append] at hk
  rcases hk with hk | hk
  · exact Chart.crossEmits_kind _ _ _ k hk
  · exact Chart.walk_up_kinds cost _ _ p1 (List.chain'_cons.1 hchain).2 k hk

theorem Chart.lastTwo_cons_cons {α : Type} :
    ∀ (l : List α) (x y : α), ∃ ab, Chart.lastTwo (x :: y :: l) = some ab := by
  intro l
  induction l with
  | nil => intro x y; exact ⟨(x, y), rfl⟩
  | cons z r ih =>
      intro x y
      have he : Chart.lastTwo (x :: y :: z :: r) = Chart.lastTwo (y :: z :: r) := rfl
      rw [he]
      exact ih y z

theorem Chart.chain'_lastTwo {α : Type} (R : α → α → Prop) :
    ∀ (l : List α) (a b : α), List.Chain' R l → Chart.lastTwo l = some (a, b) → R a b := by
  intro l
  induction l with
  | nil => intro a b _ h; simp [Chart.lastTwo] at h
  | cons x t ih =>
      intro a b hch hlt
      cases t with
      | nil => simp [Chart.lastTwo] at hlt
      | cons y t2 =>
          cases t2 with
          | nil =>
              simp [Chart.lastTwo] at hlt
              obtain ⟨rfl, rfl⟩ := hlt
              exact (List.chain'_cons.1 hch).1
          | cons z r =>
              have he : Chart.lastTwo (x :: y :: z :: r) = Chart.lastTwo (y :: z :: r) := rfl
              rw [he] at hlt
              exact ih a b (List.chain'_cons.1 hch).2 hlt

/-- C3 (amended): on a strictly increasing curve of length >= 3 the
chart.js analyzer emits exactly one LowPoint — located at the first
curve point, an artifact of the initial undefined trend satisfying the
`(not Up) -> Up` transition — zero HighPoints, and one CurveEndpoint at
the first and at the last point (whose boundary deltas are automatically
nonzero on a strictly increasing curve). -/
theorem C3_strictly_increasing_key_points (p0 p1 p2 : ValuePoint) (rest : List ValuePoint)
    (cost : ℚ)
    (hmono : List.Chain' (fun a b : ValuePoint => a.totalIntrinsicValue < b.totalIntrinsicValue)
      (p0 :: p1 :: p2 :: rest)) :
    ∃ ps pl, Chart.lastTwo (p0 :: p1 :: p2 :: rest) = some (ps, pl) ∧
      (Chart.findKeyPointsOnCurve (p0 :: p1 :: p2 :: rest) cost).filter
          (fun k => decide (k.kind = KPKind.low_point)) =
        [⟨KPKind.low_point, p0.closingPrice, p0.totalIntrinsicValue, "Low point"⟩] ∧
      (Chart.findKeyPointsOnCurve (p0 :: p1 :: p2 :: rest) cost).filter
          (fun k => decide (k.kind = KPKind.high_point)) = [] ∧
      (Chart.findKeyPointsOnCurve (p0 :: p1 :: p2 :: rest) cost).filter
          (fun k => decide (k.kind = KPKind.curve_endpoint)) =
        [⟨KPKind.curve_endpoint, p0.closingPrice, p0.totalIntrinsicValue, "Curve Start"⟩,
         ⟨KPKind.curve_endpoint, pl.closingPrice, pl.totalIntrinsicValue, "Curve End"⟩] := by
  obtain ⟨⟨ps, pl⟩, h2⟩ := Chart.lastTwo_cons_cons (p2 :: rest) p0 p1
  have hS : p0.totalIntrinsicValue - cost ≠ p1.totalIntrinsicValue - cost := by
    have := (List.chain'_cons.1 hmono).1
    exact ne_of_lt (by linarith)
  have hRlast : ps.totalIntrinsicValue < pl.totalIntrinsicValue :=
    Chart.chain'_lastTwo _ _ ps pl hmono h2
  have hE : pl.totalIntrinsicValue - cost ≠ ps.totalIntrinsicValue - cost :=
    ne_of_gt (by linarith)
  obtain ⟨tail, hw, htail⟩ := Chart.walk_none_strict cost p0 p1 (p2 :: rest) hmono (by simp)
  have hkps : Chart.findKeyPointsOnCurve (p0 :: p1 :: p2 :: rest) cost =
      [⟨KPKind.curve_endpoint, p0.closingPrice, p0.totalIntrinsicValue, "Curve Start"⟩] ++
      (⟨KPKind.low_point, p0.closingPrice, p0.totalIntrinsicValue, "Low point"⟩ :: tail) ++
      [⟨KPKind.curve_endpoint, pl.closingPrice, pl.totalIntrinsicValue, "Curve End"⟩] := by
    simp only [Chart.findKeyPointsOnCurve]
    rw [if_pos hS, h2]
    dsimp only
    rw [if_pos hE, hw]
  have t1 : tail.filter (fun k => decide (k.kind = KPKind.low_point)) = [] :=
    List.filter_eq_nil_iff.2 (fun k hk => by simp [htail k hk])
  have t2 : tail.filter (fun k => decide (k.kind = KPKind.high_point)) = [] :=
    List.filter_eq_nil_iff.2 (fun k hk => by simp [htail k hk])
  have t3 : tail.filter (fun k => decide (k.kind = KPKind.curve_endpoint)) = [] :=
    List.filter_eq_nil_iff.2 (fun k hk => by simp [htail k hk])
  refine ⟨ps, pl, h2, ?_, ?_, ?_⟩ <;>
    rw [hkps] <;>
    simp [List.filter_append, List.filter_cons, t1, t2, t3]

/-- C3 counterexample: the strictly increasing curve
`[(1,0),(2,100),(3,200)]` with cost 0 makes chart.js's analyzer emit one
LowPoint (the claim says zero). -/
theorem C3_counterexample_low_point_on_increasing_curve :
    List.Chain' (fun a b : ValuePoint => a.totalIntrinsicValue < b.totalIntrinsicValue)
      [⟨1, 0⟩, ⟨2, 100⟩, ⟨3, 200⟩] ∧
    (Chart.findKeyPointsOnCurve [⟨1, 0⟩, ⟨2, 100⟩, ⟨3, 200⟩] 0).countP
      (fun k => decide (k.kind = KPKind.low_point)) = 1 := by
  constructor
  · simp [List.chain'_cons]
    norm_num
  · have h : Chart.findKeyPointsOnCurve [⟨1, 0⟩, ⟨2, 100⟩, ⟨3, 200⟩] 0 =
        [⟨.curve_endpoint, 1, 0, "Curve Start"⟩, ⟨.low_point, 1, 0, "Low point"⟩,
         ⟨.curve_endpoint, 3, 200, "Curve End"⟩] := by
      repeat first
        | rfl
        | norm_num [Chart.findKeyPointsOnCurve, Chart.walk, Chart.trendEmits, Chart.lastTwo,
            Chart.trendOf, Chart.crossEmits]
        | simp [Chart.walk, Chart.trendEmits, Chart.lastTwo, Chart.trendOf, Chart.crossEmits]
    rw [h]
    rfl

/-- C3 witness: the amended statement instantiated on the strictly
increasing curve `[(5,10),(6,20),(7,30)]` with cost 4. -/
theorem C3_strictly_increasing_key_points_witness :
    List.Chain' (fun a b : ValuePoint => a.totalIntrinsicValue < b.totalIntrinsicValue)
      [⟨5, 10⟩, ⟨6, 20⟩, ⟨7, 30⟩] ∧
    (∃ ps pl, Chart.lastTwo [(⟨5, 10⟩ : ValuePoint), ⟨6, 20⟩, ⟨7, 30⟩] = some (ps, pl) ∧
      (Chart.findKeyPointsOnCurve [⟨5, 10⟩, ⟨6, 20⟩, ⟨7, 30⟩] 4).filter
          (fun k => decide (k.kind = KPKind.low_point)) =
        [⟨KPKind.low_point, (5 : ℚ), (10 : ℚ), "Low point"⟩] ∧
      (Chart.findKeyPointsOnCurve [⟨5, 10⟩, ⟨6, 20⟩, ⟨7, 30⟩] 4).filter
          (fun k => decide (k.kind = KPKind.high_point)) = [] ∧
      (Chart.findKeyPointsOnCurve [⟨5, 10⟩, ⟨6, 20⟩, ⟨7, 30⟩] 4).filter
          (fun k => decide (k.kind = KPKind.curve_endpoint)) =
        [⟨KPKind.curve_endpoint, (5 : ℚ), (10 : ℚ), "Curve Start"⟩,
         ⟨KPKind.curve_endpoint, pl.closingPrice, pl.totalIntrinsicValue, "Curve End"⟩]) :=
  ⟨by simp [List.chain'_cons]; norm_num,
   C3_strictly_increasing_key_points ⟨5, 10⟩ ⟨6, 20⟩ ⟨7, 30⟩ [] 4
     (by simp [List.chain'_cons]; norm_num)⟩

theorem Part000.trendStep1_kinds (t c : Option Trend) (prev : ValuePoint) :
    ∀ k ∈ Part000.trendStep1 t c prev, k.kind ≠ KPKind.zero_crossing := by
  intro k hk
  unfold Part000.trendStep1 at hk
  rcases t with _ | t <;> rcases c with _ | c <;> simp at hk
  split_ifs at hk <;> simp at hk <;> simp [hk]

theorem Part000.trendStep2_kinds (t c : Option Trend) (lnf : Option ValuePoint) :
    ∀ k ∈ Part000.trendStep2 t c lnf, k.kind ≠ KPKind.zero_crossing := by
  intro k hk
  unfold Part000.trendStep2 at hk
  rcases t with _ | t <;> rcases c with _ | c <;> rcases lnf with _ | q <;> simp at hk
  split_ifs at hk <;> simp at hk <;> simp [hk]

theorem Part000.trendLoop_kinds :
    ∀ (l : List ValuePoint) (t : Option Trend) (lnf : Option ValuePoint) (prev : ValuePoint),
      ∀ k ∈ Part000.trendLoop t lnf prev l, k.kind ≠ KPKind.zero_crossing := by
  intro l
  induction l with
  | nil => intro t lnf prev k hk; simp [Part000.trendLoop] at hk
  | cons current rest ih =>
      intro t lnf prev k hk
      rw [Part000.trendLoop] at hk
      simp only [List.append_eq, List.mem_append] at hk
      rcases hk with (hk | hk) | hk
      · exact Part000.trendStep1_kinds _ _ _ k hk
      · exact Part000.trendStep2_kinds _ _ _ k hk
      · exact ih _ _ _ k hk

/-- The zero-crossing scan is the list of interpolated crossing points
of the adjacent pairs whose profit/loss sign changes with distinct
values. -/
theorem Part000.crossingsLoop_eq (cost : ℚ) :
    ∀ l : List ValuePoint,
      Part000.crossingsLoop cost l =
        ((l.zip l.tail).filter (fun cn =>
          decide ((((cn.1.totalIntrinsicValue - cost ≤ 0 ∧ 0 ≤ cn.2.totalIntrinsicValue - cost) ∨
            (0 ≤ cn.1.totalIntrinsicValue - cost ∧ cn.2.totalIntrinsicValue - cost ≤ 0)) ∧
            cn.1.totalIntrinsicValue - cost ≠ cn.2.totalIntrinsicValue - cost)))).map
          (fun cn =>
            ⟨KPKind.zero_crossing,
             cn.1.closingPrice + (cn.2.closingPrice - cn.1.closingPrice) *
               (|cn.1.totalIntrinsicValue - cost| /
                |(cn.2.totalIntrinsicValue - cost) - (cn.1.totalIntrinsicValue - cost)|),
             cost, "Break Even"⟩) := by
  intro l
  induction l with
  | nil => simp [Part000.crossingsLoop]
  | cons current rest ih =>
      cases rest with
      | nil => simp [Part000.crossingsLoop]
      | cons nxt rest' =>
          rw [Part000.crossingsLoop, ih]
          show _ ++ _ = ((((current, nxt) :: (nxt :: rest').zip rest').filter _).map _)
          rw [List.filter_cons]
          by_cases hc : (((current.totalIntrinsicValue - cost ≤ 0 ∧
              0 ≤ nxt.totalIntrinsicValue - cost) ∨
              (0 ≤ current.totalIntrinsicValue - cost ∧ nxt.totalIntrinsicValue - cost ≤ 0)) ∧
              current.totalIntrinsicValue - cost ≠ nxt.totalIntrinsicValue - cost)
          · rw [if_pos hc, if_pos (by simpa using hc), List.map_cons]
            rfl
          · rw [if_neg hc, if_neg (by simpa using hc)]
            rfl

/-- C2: in `unnamed/part_000`'s `findKeyPointsOnCurve` (the interpolating
variant the spec adopts), whenever the profit/loss strictly changes sign
between two adjacent curve points the output contains a ZeroCrossing at
the linearly interpolated break-even price
`P(i) + (P(i+1) - P(i)) * |pl(i)| / |pl(i+1) - pl(i)|`, and the number of
ZeroCrossing points equals the number of adjacent pairs whose
profit/loss sign changes with distinct values — equal adjacent values
emit nothing. -/
theorem C2_zero_crossing_interpolation (curve : List ValuePoint) (cost : ℚ)
    (hlen : 3 ≤ curve.length) :
    (∀ i, (hi : i + 1 < curve.length) →
      ((curve[i].totalIntrinsicValue - cost < 0 ∧ 0 < curve[i+1].totalIntrinsicValue - cost) ∨
       (0 < curve[i].totalIntrinsicValue - cost ∧ curve[i+1].totalIntrinsicValue - cost < 0)) →
      (⟨KPKind.zero_crossing,
        curve[i].closingPrice + (curve[i+1].closingPrice - curve[i].closingPrice) *
          (|curve[i].totalIntrinsicValue - cost| /
           |(curve[i+1].totalIntrinsicValue - cost) - (curve[i].totalIntrinsicValue - cost)|),
        cost, "Break Even"⟩ : KeyPoint) ∈ Part000.findKeyPointsOnCurve curve cost) ∧
    (Part000.findKeyPointsOnCurve curve cost).countP
        (fun k => decide (k.kind = KPKind.zero_crossing)) =
      (curve.zip curve.tail).countP (fun cn =>
        decide ((((cn.1.totalIntrinsicValue - cost ≤ 0 ∧ 0 ≤ cn.2.totalIntrinsicValue - cost) ∨
          (0 ≤ cn.1.totalIntrinsicValue - cost ∧ cn.2.totalIntrinsicValue - cost ≤ 0)) ∧
          cn.1.totalIntrinsicValue - cost ≠ cn.2.totalIntrinsicValue - cost))) := by
  obtain ⟨p0, rest, rfl⟩ : ∃ p0 rest, curve = p0 :: rest := by
    cases curve with
    | nil => simp at hlen
    | cons p0 rest => exact ⟨p0, rest, rfl⟩
  constructor
  · intro i hi hchange
    unfold Part000.findKeyPointsOnCurve
    rw [if_neg (not_lt.2 hlen)]
    rw [List.mem_insertionSort, List.mem_append]
    left
    rw [Part000.crossingsLoop_eq]
    apply List.mem_map.2
    refine ⟨((p0 :: rest)[i], (p0 :: rest)[i+1]), ?_, rfl⟩
    apply List.mem_filter.2
    constructor
    · have hzip : i < ((p0 :: rest).zip (p0 :: rest).tail).length := by
        rw [List.length_zip (p0 :: rest) (p0 :: rest).tail, List.length_tail]
        omega
      have hmem : ((p0 :: rest).zip (p0 :: rest).tail)[i] ∈
          (p0 :: rest).zip (p0 :: rest).tail := List.getElem_mem hzip
      rwa [List.getElem_zip, List.getElem_tail] at hmem
    · simp only [decide_eq_true_eq]
      rcases hchange with ⟨ha, hb⟩ | ⟨ha, hb⟩
      · exact ⟨Or.inl ⟨ha.le, hb.le⟩, ne_of_lt (lt_trans ha hb)⟩
      · exact ⟨Or.inr ⟨ha.le, hb.le⟩, ne_of_gt (lt_trans hb ha)⟩
  · unfold Part000.findKeyPointsOnCurve
    rw [if_neg (not_lt.2 hlen)]
    rw [(List.perm_insertionSort Part000.priceLE _).countP_eq]
    rw [List.countP_append]
    have h1 : (Part000.trendLoop none none p0 rest).countP
        (fun k => decide (k.kind = KPKind.zero_crossing)) = 0 :=
      List.countP_eq_zero.2 (fun k hk => by
        simp [Part000.trendLoop_kinds rest none none p0 k hk])
    rw [h1, Nat.add_zero, Part000.crossingsLoop_eq, List.countP_map]
    rw [List.countP_eq_length.2 (fun cn _ => by simp)]
    exact (List.countP_eq_length_filter _ _).symm

/-- C2 witness: the spec's example — a single long call curve
`[(90,0),(100,0),(110,1000)]` with cost 500 contains a ZeroCrossing at
the interpolated break-even price 105.00. -/
theorem C2_zero_crossing_interpolation_witness :
    3 ≤ ([⟨90, 0⟩, ⟨100, 0⟩, ⟨110, 1000⟩] : List ValuePoint).length ∧
    (⟨KPKind.zero_crossing, (105 : ℚ), 500, "Break Even"⟩ : KeyPoint) ∈
      Part000.findKeyPointsOnCurve [⟨90, 0⟩, ⟨100, 0⟩, ⟨110, 1000⟩] 500 := by
  refine ⟨by norm_num, ?_⟩
  have h := (C2_zero_crossing_interpolation [⟨90, 0⟩, ⟨100, 0⟩, ⟨110, 1000⟩] 500
    (by norm_num)).1 1 (by norm_num) (by norm_num)
  norm_num at h
  convert h using 2
